import Mathlib

/-!
Shallow embedding of `claude_cli.py` (a command-line chat client for a hosted
LLM API).  Text is modelled as `List Char`; Python's regex-based code-block
extraction is modelled by explicit left-to-right scans with the same match
semantics; the stateful `ChatSession` is modelled by explicit state passing
with the remote call supplied as an oracle input.
-/

namespace ClaudeCli

/-- Text is modelled as a list of characters (Python `str`). -/
abbrev Str := List Char

/-- The backtick character (obtained from a string literal). -/
def backtick : Char := "`".toList.headI

/-- The single-quote (apostrophe) character. -/
def squote : Char := Char.ofNat 39

/-- The triple-backtick fence. -/
def fence : Str := "```".toList

/-- Triple single-quote delimiter (Python pattern `'''(.*?)'''`). -/
def sq3 : Str := [squote, squote, squote]

/-- Triple double-quote delimiter. -/
def dq3 : Str := "\"\"\"".toList

/-- Triple opening curly brace delimiter. -/
def cb3open : Str := "\x7b\x7b\x7b".toList

/-- Triple closing curly brace delimiter. -/
def cb3close : Str := "\x7d\x7d\x7d".toList

/-- Python `str.strip()` whitespace test (ASCII whitespace; the source is only
ever exercised on ASCII program text). -/
def isPySpace (c : Char) : Bool :=
  c = ' ' || c = '\t' || c = '\n' || c = '\r' || c = '\x0B' || c = '\x0C'

/-- Python `str.strip()`: drop leading and trailing whitespace. -/
def pyStrip (s : Str) : Str :=
  ((s.dropWhile isPySpace).reverse.dropWhile isPySpace).reverse

/-- Prefix test (as `List.isPrefixOf`, matching the pattern argument
first). -/
def isPre : Str → Str → Bool
  | [], _ => true
  | _ :: _, [] => false
  | a :: as, b :: bs => a == b && isPre as bs

/-- Python's substring test `pat in s`. -/
def containsSub (pat : Str) : Str → Bool
  | [] => isPre pat []
  | c :: rest => isPre pat (c :: rest) || containsSub pat rest

/-- Split `s` at the first occurrence of `pat`: returns the part before the
occurrence and the part after it (the occurrence itself removed), or `none`
when `pat` does not occur.  (Never called with an empty `pat`.) -/
def splitOnFirst (pat : Str) : Str → Option (Str × Str)
  | [] => none
  | c :: rest =>
    if isPre pat (c :: rest) then some ([], (c :: rest).drop pat.length)
    else
      match splitOnFirst pat rest with
      | some (pre, post) => some (c :: pre, post)
      | none => none

/-- Python regex `\w` on the ASCII program text the source handles. -/
def isWordChar (c : Char) : Bool := c.isAlphanum || c = '_'

/-- Match of the primary pattern ```` ```(?:\w*\n)?(.*?)``` ```` (DOTALL)
anchored at the start of `s`: an opening fence, an optional language tag
(a run of word characters followed by a newline, greedily consumed — word
characters and the newline contain no backtick, so consuming the tag never
hides a closing fence), then a lazy body ending at the nearest closing
fence.  Returns the captured body and the text after the whole match. -/
def matchPrimaryAt (s : Str) : Option (Str × Str) :=
  if isPre fence s then
    let afterOpen := s.drop 3
    let run := afterOpen.takeWhile isWordChar
    let afterTag :=
      match afterOpen.drop run.length with
      | '\n' :: t => t
      | _ => afterOpen
    match splitOnFirst fence afterTag with
    | some (body, rest) => some (body, rest)
    | none => none
  else none

/-- Match of a symmetric lazy delimiter pattern such as `'''(.*?)'''`
anchored at the start of `s`: the opening delimiter, then a lazy body ending
at the nearest closing delimiter. -/
def matchDelimAt (opn cls : Str) (s : Str) : Option (Str × Str) :=
  if isPre opn s then
    match splitOnFirst cls (s.drop opn.length) with
    | some (body, rest) => some (body, rest)
    | none => none
  else none

/-- Match of the permissive pattern ```` ```([^`]*(?:`[^`]+)*?)``` ````
anchored at the start of `s`.  The lazy body ends at the nearest closing
fence; since the body stops at the first fence it cannot end in a backtick,
so it belongs to the pattern's body language exactly when it contains no
double backtick. -/
def matchPermissiveAt (s : Str) : Option (Str × Str) :=
  if isPre fence s then
    match splitOnFirst fence (s.drop 3) with
    | some (body, rest) =>
      if containsSub ("``".toList) body then none else some (body, rest)
    | none => none
  else none

/-- Python `re.findall` for a pattern whose anchored-match function is `m`:
scan left to right; at a match, emit it and continue after the match;
otherwise advance one character.  Every step consumes at least one character,
so fuel `s.length + 1` always suffices (the fuel is only a termination
bound, never reached). -/
def findallFuel (m : Str → Option (Str × Str)) : Nat → Str → List Str
  | _, [] => []
  | 0, _ :: _ => []
  | fuel + 1, c :: rest =>
    match m (c :: rest) with
    | some (body, after) => body :: findallFuel m fuel after
    | none => findallFuel m fuel rest

/-- Keyword alternation of the fallback pattern
`(?:def |class |import |from \w+ import)` anchored at the start of `s`.
Returns the matched keyword text and the rest of the input. -/
def matchKw (s : Str) : Option (Str × Str) :=
  if isPre ("def ".toList) s then some ("def ".toList, s.drop 4)
  else if isPre ("class ".toList) s then some ("class ".toList, s.drop 6)
  else if isPre ("import ".toList) s then some ("import ".toList, s.drop 7)
  else if isPre ("from ".toList) s then
    let rest := s.drop 5
    let run := rest.takeWhile isWordChar
    if run ≠ [] && isPre (" import".toList) (rest.drop run.length) then
      some ("from ".toList ++ run ++ " import".toList,
            (rest.drop run.length).drop 7)
    else none
  else none

/-- Split before the first occurrence of a blank line separator `"\n\n"`
(the lookahead `(?=\n\n|\Z)` of the fallback pattern does not consume it):
returns the text before it and the text from it on (empty when absent). -/
def splitAtBlank : Str → Str × Str
  | [] => ([], [])
  | c :: rest =>
    if isPre ("\n\n".toList) (c :: rest) then ([], c :: rest)
    else
      let p := splitAtBlank rest
      (c :: p.1, p.2)

/-- Python `re.findall` for the fallback pattern
`(?:^|\n)(?:def |class |import |from \w+ import).*?(?=\n\n|\Z)` with
DOTALL and MULTILINE.  `atStart` records whether the current position is the
string start or directly follows a newline (where `^` matches).  The pattern
has no capture group, so the whole match — including a consumed leading
newline — is emitted.  Fuel as in `findallFuel`. -/
def fallbackFuel : Nat → Bool → Str → List Str
  | _, _, [] => []
  | 0, _, _ :: _ => []
  | fuel + 1, atStart, c :: rest =>
    match (if atStart then matchKw (c :: rest) else none) with
    | some (kw, after) =>
      let p := splitAtBlank after
      (kw ++ p.1) :: fallbackFuel fuel false p.2
    | none =>
      if c = '\n' then
        match matchKw rest with
        | some (kw, after) =>
          let p := splitAtBlank after
          ('\n' :: (kw ++ p.1)) :: fallbackFuel fuel false p.2
        | none => fallbackFuel fuel true rest
      else fallbackFuel fuel (c = '\n') rest

/-- `extract_code_blocks` from the source: try the standard triple-backtick
pattern; if it yields no match, try the alternative delimiter conventions in
order (triple single-quote, triple double-quote, triple curly brace, then
the permissive backtick pattern); if none match, fall back to extracting
code-introducing line runs.  Every matched block is stripped. -/
def extract_code_blocks (text : Str) : List Str :=
  let primary := findallFuel matchPrimaryAt (text.length + 1) text
  if !primary.isEmpty then primary.map pyStrip else
  let p1 := findallFuel (matchDelimAt sq3 sq3) (text.length + 1) text
  if !p1.isEmpty then p1.map pyStrip else
  let p2 := findallFuel (matchDelimAt dq3 dq3) (text.length + 1) text
  if !p2.isEmpty then p2.map pyStrip else
  let p3 := findallFuel (matchDelimAt cb3open cb3close) (text.length + 1) text
  if !p3.isEmpty then p3.map pyStrip else
  let p4 := findallFuel matchPermissiveAt (text.length + 1) text
  if !p4.isEmpty then p4.map pyStrip else
  (fallbackFuel (text.length + 1) true text).map pyStrip





/-- Python `line.split('\n')`. -/
def splitLines : Str → List Str
  | [] => [[]]
  | c :: rest =>
    if c = '\n' then [] :: splitLines rest
    else
      match splitLines rest with
      | l :: ls => (c :: l) :: ls
      | [] => [[c]]

/-- The `basic_indicators` list of `validate_code_block`, in source order. -/
def basic_indicators : List Str :=
  ["def ".toList, "import ".toList, "class ".toList, "= ".toList,
   "print(".toList, "return ".toList, "if ".toList, "for ".toList,
   "while ".toList, "try:".toList, "with ".toList, "@".toList,
   "lambda".toList]

/-- Opening bracket test (`char in brackets.keys()`). -/
def isOpenBracket (c : Char) : Bool := c = '(' || c = '[' || c = '\x7b'

/-- Closing bracket test (`char in brackets.values()`). -/
def isCloseBracket (c : Char) : Bool := c = ')' || c = ']' || c = '\x7d'

/-- The `brackets` dictionary: the closer matching an opener. -/
def closerOf (c : Char) : Char :=
  if c = '(' then ')' else if c = '[' then ']' else '\x7d'

/-- The bracket loop of `validate_code_block`: push openers, pop-and-match on
closers (stack top is the most recent opener, as with Python `list.pop()`),
fail on an early closer or a mismatch, and require an empty stack at the
end. -/
def bracketLoop : Str → List Char → Bool
  | [], stack => stack.isEmpty
  | c :: rest, stack =>
    if isOpenBracket c then bracketLoop rest (c :: stack)
    else if isCloseBracket c then
      match stack with
      | [] => false
      | top :: stack' => if c ≠ closerOf top then false else bracketLoop rest stack'
    else bracketLoop rest stack

/-- Python `line.startswith((' ', '\t'))`. -/
def startsIndented : Str → Bool
  | [] => false
  | c :: _ => c = ' ' || c = '\t'

/-- `validate_code_block` from the source: reject empty or too-short
candidates, require a basic indicator substring, balanced brackets under the
stack discipline, and at least one indented line. -/
def validate_code_block (code : Str) : Bool :=
  if code.isEmpty || (pyStrip code).length < 10 then false
  else if !(basic_indicators.any fun ind => containsSub ind code) then false
  else if !bracketLoop code [] then false
  else (splitLines code).any startsIndented


/-- The content `save_to_file` actually writes: the given content with every
occurrence of a triple backtick removed (Python
`content.replace('```', '')`, left-to-right and non-rescanning) and then
stripped of leading and trailing whitespace. -/
def replaceFences : Str → Str
  | c1 :: c2 :: c3 :: rest =>
    if c1 :: c2 :: [c3] = fence then replaceFences rest
    else c1 :: replaceFences (c2 :: c3 :: rest)
  | s => s

/-- The text written by `save_to_file` for a given `content` argument. -/
def save_to_file_content (content : Str) : Str := pyStrip (replaceFences content)


/-- The separator `handle_script_output` places between valid blocks. -/
def blockSeparator : Str := "\n\n# ===== Code Block Separator =====\n\n".toList

/-- The file writes performed by `handle_script_output`, as a list of
(path, written text) pairs: extract the code blocks, filter them through
`validate_code_block`, and — when any survive — save the blocks joined by
`blockSeparator` in a single `save_to_file` call to the one requested
path. -/
def handle_script_output_writes (response : Str) (script_output : Str) :
    List (Str × Str) :=
  let code_blocks := extract_code_blocks response
  if code_blocks.isEmpty then []
  else
    let valid_blocks := code_blocks.filter validate_code_block
    if valid_blocks.isEmpty then []
    else [(script_output, save_to_file_content (List.intercalate blockSeparator valid_blocks))]

/-- Outcome of the remote `messages.create` call, supplied as an oracle:
either a response text or an exception message `str(e)`. -/
inductive RemoteResult where
  | ok (response : Str)
  | err (message : Str)
deriving DecidableEq

/-- `ChatSession` state: the model id, the context-preservation flag, and the
in-memory `conversation_history` (initially empty). -/
structure Session where
  model : Str
  preserve_context : Bool
  conversation_history : List Str
deriving DecidableEq

/-- `ChatSession.__init__`. -/
def initSession (model : Str) (preserve_context : Bool) : Session :=
  ⟨model, preserve_context, []⟩

/-- The fixed instruction appended when `--script-output` is on the command
line. -/
def scriptInstruction : Str :=
  ("\n\nPlease return the complete script in its entirety within triple backticks (```). If the script contains backticks, please escape them or use alternative delimiters.").toList

/-- The current-turn prompt text of `send_message` before history is
prepended: wrap the message with the context template when `context` is
truthy (present and non-empty), then append the script instruction when
script output was requested (`'--script-output' in sys.argv`, modelled as
the explicit flag `script_output`). -/
def composePrompt (message : Str) (context : Option Str) (script_output : Bool) : Str :=
  let base :=
    match context with
    | some ctx =>
      if !ctx.isEmpty then
        "Context:\n".toList ++ ctx ++ "\n\nQuestion/Instruction:\n".toList ++ message
      else message
    | none => message
  if script_output then base ++ scriptInstruction else base

/-- The full outgoing prompt of `send_message`: when context preservation is
on and the history is non-empty, the newline join of all history entries
followed by the current-turn text; otherwise the current-turn text alone. -/
def fullPrompt (s : Session) (message : Str) (context : Option Str)
    (script_output : Bool) : Str :=
  let fp := composePrompt message context script_output
  if s.preserve_context && !s.conversation_history.isEmpty then
    List.intercalate ("\n".toList) (s.conversation_history ++ [fp])
  else fp

/-- The Python error message `f"An error occurred: {str(e)}"`. -/
def errText (e : Str) : Str := "An error occurred: ".toList ++ e

/-- `ChatSession.send_message`: build the full prompt and issue the remote
call.  On success, extend the history with the submitted prompt and the
response (when `preserve_context` is set) and return the response; on an
exception, return the error text — the history extension is skipped because
the exception is raised before it. -/
def send_message (s : Session) (message : Str) (context : Option Str)
    (script_output : Bool) (remote : RemoteResult) : Session × Str :=
  let fp := fullPrompt s message context script_output
  match remote with
  | RemoteResult.ok resp =>
    ({ s with conversation_history :=
        if s.preserve_context then s.conversation_history ++ [fp, resp]
        else s.conversation_history }, resp)
  | RemoteResult.err e => (s, errText e)

/-- One interactive turn: the user message, optional file context, the
script-output flag, and the oracle outcome of the remote call. -/
structure TurnInput where
  message : Str
  context : Option Str
  script_output : Bool
  remote : RemoteResult
deriving DecidableEq

/-- The session after one `send_message` call. -/
def stepSession (s : Session) (i : TurnInput) : Session :=
  (send_message s i.message i.context i.script_output i.remote).1

/-- The text `send_message` returns for one turn. -/
def turnOutput (s : Session) (i : TurnInput) : Str :=
  (send_message s i.message i.context i.script_output i.remote).2

/-- The session after a sequence of `send_message` calls. -/
def runSession : Session → List TurnInput → Session
  | s, [] => s
  | s, i :: is => runSession (stepSession s i) is

/-- The prompts actually submitted to the remote client along a run, in
order. -/
def sentPrompts : Session → List TurnInput → List Str
  | _, [] => []
  | s, i :: is =>
    fullPrompt s i.message i.context i.script_output :: sentPrompts (stepSession s i) is

/-- The value `send_message` returns for a turn (the response on success,
the error text on failure). -/
def respOf (i : TurnInput) : Str :=
  match i.remote with
  | RemoteResult.ok r => r
  | RemoteResult.err e => errText e

/-- Interleave a list of (prompt, response) pairs into the flat history
layout used by `conversation_history`. -/
def flattenTurns : List (Str × Str) → List Str
  | [] => []
  | p :: ps => p.1 :: p.2 :: flattenTurns ps

/-- Number of leading backticks of a text (proof helper). -/
def leadingBT (s : Str) : Nat := (s.takeWhile fun c => c = backtick).length

/-- Concrete model response with two fenced code blocks, both of which pass
`validate_code_block`. -/
def respC3 : Str :=
  "```\nx = 10\n    y = 20\n```\nSome text.\n```\ndef g():\n    return 2\n```".toList

section SessionLemmas

lemma initSession_preserve (model : Str) (b : Bool) :
    (initSession model b).preserve_context = b := rfl

lemma initSession_history (model : Str) (b : Bool) :
    (initSession model b).conversation_history = [] := rfl

lemma stepSession_preserve_context (s : Session) (i : TurnInput) :
    (stepSession s i).preserve_context = s.preserve_context := by
  cases hr : i.remote <;> simp [stepSession, send_message, hr]

lemma stepSession_model (s : Session) (i : TurnInput) :
    (stepSession s i).model = s.model := by
  cases hr : i.remote <;> simp [stepSession, send_message, hr]

lemma runSession_preserve_context (s : Session) (l : List TurnInput) :
    (runSession s l).preserve_context = s.preserve_context := by
  induction l generalizing s with
  | nil => rfl
  | cons i is ih => rw [runSession, ih, stepSession_preserve_context]

lemma stepSession_of_not_preserve (s : Session) (i : TurnInput)
    (h : s.preserve_context = false) : stepSession s i = s := by
  cases s
  cases hr : i.remote <;> simp_all [stepSession, send_message]

lemma runSession_of_not_preserve (s : Session) (l : List TurnInput)
    (h : s.preserve_context = false) : runSession s l = s := by
  induction l with
  | nil => rfl
  | cons i is ih => rw [runSession, stepSession_of_not_preserve s i h, ih]

lemma stepSession_history_ok (s : Session) (i : TurnInput) (r : Str)
    (hpc : s.preserve_context = true) (hr : i.remote = RemoteResult.ok r) :
    (stepSession s i).conversation_history =
      s.conversation_history ++ [fullPrompt s i.message i.context i.script_output, r] := by
  simp [stepSession, send_message, hr, hpc]

lemma run_history_ok (s : Session) (l : List TurnInput)
    (hpc : s.preserve_context = true)
    (hok : ∀ i ∈ l, ∃ r, i.remote = RemoteResult.ok r) :
    (runSession s l).conversation_history =
      s.conversation_history ++ flattenTurns ((sentPrompts s l).zip (l.map respOf)) := by
  induction l generalizing s with
  | nil => simp [runSession, sentPrompts, flattenTurns]
  | cons i is ih =>
    obtain ⟨r, hr⟩ := hok i (List.mem_cons_self i is)
    have hpc' : (stepSession s i).preserve_context = true := by
      rw [stepSession_preserve_context, hpc]
    have hok' : ∀ j ∈ is, ∃ r', j.remote = RemoteResult.ok r' :=
      fun j hj => hok j (List.mem_cons_of_mem i hj)
    have hresp : respOf i = r := by simp [respOf, hr]
    rw [runSession, sentPrompts, List.map_cons, List.zip_cons_cons, flattenTurns,
      ih (stepSession s i) hpc' hok', stepSession_history_ok s i r hpc hr, hresp]
    simp

lemma intercalate_singleton (sep x : Str) : List.intercalate sep [x] = x := by
  simp [List.intercalate]

lemma fullPrompt_intercalate (s : Session) (m : Str) (c : Option Str) (so : Bool)
    (hpc : s.preserve_context = true) :
    fullPrompt s m c so =
      List.intercalate ("\n".toList) (s.conversation_history ++ [composePrompt m c so]) := by
  rcases h : s.conversation_history with _ | ⟨a, t⟩
  · simp [fullPrompt, h, hpc, intercalate_singleton]
  · simp [fullPrompt, h, hpc]

lemma fullPrompt_congr (s1 s2 : Session) (m : Str) (c : Option Str) (so : Bool)
    (hpc : s1.preserve_context = s2.preserve_context)
    (hh : s1.conversation_history = s2.conversation_history) :
    fullPrompt s1 m c so = fullPrompt s2 m c so := by
  simp [fullPrompt, hpc, hh]

lemma sentPrompts_not_preserve (s : Session) (l : List TurnInput)
    (h : s.preserve_context = false) :
    sentPrompts s l = l.map fun i => composePrompt i.message i.context i.script_output := by
  induction l with
  | nil => rfl
  | cons i is ih =>
    rw [sentPrompts, stepSession_of_not_preserve s i h, ih, List.map_cons]
    simp [fullPrompt, h]

lemma stepSession_history_cases (s : Session) (i : TurnInput) :
    (stepSession s i).conversation_history = s.conversation_history ∨
      ∃ p r, (stepSession s i).conversation_history = s.conversation_history ++ [p, r] := by
  cases hr : i.remote with
  | ok r =>
    cases hpc : s.preserve_context with
    | false => left; simp [stepSession, send_message, hr, hpc]
    | true => right; exact ⟨_, _, stepSession_history_ok s i r hpc hr⟩
  | err e => left; simp [stepSession, send_message, hr]

lemma runSession_history_even (s : Session) (l : List TurnInput)
    (h : Even s.conversation_history.length) :
    Even (runSession s l).conversation_history.length := by
  induction l generalizing s with
  | nil => exact h
  | cons i is ih =>
    rw [runSession]
    refine ih _ ?_
    rcases stepSession_history_cases s i with hc | ⟨p, r, hc⟩
    · rw [hc]; exact h
    · rw [hc, List.length_append]
      obtain ⟨k, hk⟩ := h
      exact ⟨k + 1, by simp [hk]; omega⟩

end SessionLemmas

/-- C1 (amended): with `preserve_context = true`, the outgoing prompt of every
turn is the newline join of all recorded history entries — each successful
prior turn contributing two entries, the full prompt actually submitted
(which itself embeds all earlier history) and the response — followed by the
freshly composed current-turn text.  Because submitted prompts embed earlier
history, a prior turn's text can occur more than once from the third turn
on (see the counterexample to the original claim). -/
theorem C1_prompt_is_history_join (model : Str) (l : List TurnInput)
    (m : Str) (c : Option Str) (so : Bool)
    (hok : ∀ i ∈ l, ∃ r, i.remote = RemoteResult.ok r) :
    fullPrompt (runSession (initSession model true) l) m c so =
      List.intercalate ("\n".toList)
        (flattenTurns ((sentPrompts (initSession model true) l).zip (l.map respOf))
          ++ [composePrompt m c so]) := by
  have hpc : (runSession (initSession model true) l).preserve_context = true :=
    runSession_preserve_context _ _
  rw [fullPrompt_intercalate _ _ _ _ hpc, run_history_ok _ _ rfl hok]
  rfl

/-- Witness for C1: a one-turn run, with the hypothesis discharged. -/
theorem C1_prompt_is_history_join_witness :
    fullPrompt (runSession (initSession ("m".toList) true)
        [⟨"a".toList, none, false, RemoteResult.ok ("b".toList)⟩]) ("c".toList) none false =
      List.intercalate ("\n".toList)
        (flattenTurns ((sentPrompts (initSession ("m".toList) true)
            [⟨"a".toList, none, false, RemoteResult.ok ("b".toList)⟩]).zip
            ([(⟨"a".toList, none, false, RemoteResult.ok ("b".toList)⟩ : TurnInput)].map respOf))
          ++ [composePrompt ("c".toList) none false]) :=
  C1_prompt_is_history_join _ _ _ _ _ (by
    intro i hi
    rw [List.mem_singleton] at hi
    exact ⟨"b".toList, by rw [hi]⟩)

/-- Counterexample to C1 as stated: in the run with turns ("a" ↦ "b") and
("c" ↦ "d"), the third outgoing prompt is "a\nb\na\nb\nc\nd\ne" — the
first turn's prompt "a" (and its response "b") occurs twice as a standalone
line, not exactly once, because the second turn's recorded submitted prompt
"a\nb\nc" already embeds the first turn. -/
theorem C1_counterexample :
    fullPrompt (runSession (initSession ("m".toList) true)
        [⟨"a".toList, none, false, RemoteResult.ok ("b".toList)⟩,
         ⟨"c".toList, none, false, RemoteResult.ok ("d".toList)⟩])
        ("e".toList) none false = "a\nb\na\nb\nc\nd\ne".toList ∧
    (splitLines (fullPrompt (runSession (initSession ("m".toList) true)
        [⟨"a".toList, none, false, RemoteResult.ok ("b".toList)⟩,
         ⟨"c".toList, none, false, RemoteResult.ok ("d".toList)⟩])
        ("e".toList) none false)).count ("a".toList) = 2 := by
  decide

/-- C2 (amended): a remote-call failure is caught and converted to the text
"An error occurred: ..." returned in place of the response, and is never
re-raised — but the turn is NOT recorded: the session (in particular its
in-memory history) is left completely unchanged, whatever the value of
`preserve_context`. -/
theorem C2_error_caught_not_recorded (s : Session) (m : Str) (c : Option Str)
    (so : Bool) (e : Str) :
    (send_message s m c so (RemoteResult.err e)).2 = errText e ∧
    (send_message s m c so (RemoteResult.err e)).1 = s := by
  exact ⟨rfl, rfl⟩

/-- Counterexample to C2 as stated: after a failing first turn with
`preserve_context = true`, the error text is returned but the history is
still empty — the claim instead requires the turn to be recorded with the
error text as its response. -/
theorem C2_counterexample :
    (send_message (initSession ("m".toList) true) ("hi".toList) none false
        (RemoteResult.err ("boom".toList))).2 = "An error occurred: boom".toList ∧
    (send_message (initSession ("m".toList) true) ("hi".toList) none false
        (RemoteResult.err ("boom".toList))).1.conversation_history = [] := by
  decide

/-- C3 (amended): when valid code blocks are extracted and a single
script-output path was requested, `handle_script_output` performs exactly one
write, at exactly the requested path, of all valid blocks joined by the
separator comment — it never fans out into per-block artifacts with
index-suffixed path stems. -/
theorem C3_single_combined_artifact (response path : Str) :
    (handle_script_output_writes response path).length ≤ 1 ∧
    (∀ w ∈ handle_script_output_writes response path, w.1 = path) ∧
    ((extract_code_blocks response).filter validate_code_block ≠ [] →
      handle_script_output_writes response path =
        [(path, save_to_file_content (List.intercalate blockSeparator
            ((extract_code_blocks response).filter validate_code_block)))]) := by
  simp only [handle_script_output_writes]
  split_ifs with ha hb
  · refine ⟨by simp, by simp, fun hne => absurd ?_ hne⟩
    rw [List.isEmpty_iff] at ha
    rw [ha]
    rfl
  · refine ⟨by simp, by simp, fun hne => absurd ?_ hne⟩
    rwa [List.isEmpty_iff] at hb
  · refine ⟨by simp, ?_, fun _ => rfl⟩
    intro w hw
    rw [List.mem_singleton] at hw
    rw [hw]

/-- Witness for C3 (amended), at a concrete response with two valid blocks. -/
theorem C3_single_combined_artifact_witness :
    handle_script_output_writes respC3 ("script.py".toList) =
      [("script.py".toList, save_to_file_content (List.intercalate blockSeparator
          ((extract_code_blocks respC3).filter validate_code_block)))] :=
  (C3_single_combined_artifact respC3 ("script.py".toList)).2.2 (by decide)

/-- Counterexample to C3 as stated: `respC3` yields two valid code blocks,
yet the handler performs a single write, at the unmodified requested path,
of the two blocks joined by the separator — not one artifact per block at
index-suffixed paths. -/
theorem C3_counterexample :
    ((extract_code_blocks respC3).filter validate_code_block).length = 2 ∧
    handle_script_output_writes respC3 ("script.py".toList) =
      [("script.py".toList,
        "x = 10\n    y = 20\n\n# ===== Code Block Separator =====\n\ndef g():\n    return 2".toList)] := by
  decide

/-- C4: prompt assembly is a pure, deterministic function of the message, the
optional file context, the code-output flag and the history snapshot: any two
reachable sessions with the same history produce the same outgoing prompt for
the same explicit inputs — whatever models, flags, or run prefixes produced
them. -/
theorem C4_prompt_determinism (model1 model2 : Str) (pc1 pc2 : Bool)
    (l1 l2 : List TurnInput) (m : Str) (c : Option Str) (so : Bool)
    (hh : (runSession (initSession model1 pc1) l1).conversation_history =
          (runSession (initSession model2 pc2) l2).conversation_history) :
    fullPrompt (runSession (initSession model1 pc1) l1) m c so =
      fullPrompt (runSession (initSession model2 pc2) l2) m c so := by
  have h1 : (runSession (initSession model1 pc1) l1).preserve_context = pc1 :=
    runSession_preserve_context _ _
  have h2 : (runSession (initSession model2 pc2) l2).preserve_context = pc2 :=
    runSession_preserve_context _ _
  cases pc1 <;> cases pc2
  · exact fullPrompt_congr _ _ _ _ _ (h1.trans h2.symm) hh
  · have e1 : runSession (initSession model1 false) l1 = initSession model1 false :=
      runSession_of_not_preserve _ _ rfl
    have hh2 : (runSession (initSession model2 true) l2).conversation_history = [] := by
      rw [← hh, e1]; rfl
    rw [e1]
    simp [fullPrompt, h2, hh2, initSession_preserve]
  · have e2 : runSession (initSession model2 false) l2 = initSession model2 false :=
      runSession_of_not_preserve _ _ rfl
    have hh1 : (runSession (initSession model1 true) l1).conversation_history = [] := by
      rw [hh, e2]; rfl
    rw [e2]
    simp [fullPrompt, h1, hh1, initSession_preserve]
  · exact fullPrompt_congr _ _ _ _ _ (h1.trans h2.symm) hh

/-- Witness for C4: two empty runs that only differ in the flag and still
assemble the same prompt. -/
theorem C4_prompt_determinism_witness :
    fullPrompt (runSession (initSession ("m".toList) true) []) ("q".toList) none false =
      fullPrompt (runSession (initSession ("m".toList) false) []) ("q".toList) none false :=
  C4_prompt_determinism _ _ _ _ _ _ _ _ _ rfl

/-- C7: with `preserve_context = false` the in-memory history stays empty
after any number of turns, and every prompt sent is exactly the composed
current-turn text, with no history content prepended. -/
theorem C7_no_context_invariant (model : Str) (l : List TurnInput) :
    (runSession (initSession model false) l).conversation_history = [] ∧
    sentPrompts (initSession model false) l =
      l.map fun i => composePrompt i.message i.context i.script_output := by
  constructor
  · rw [runSession_of_not_preserve _ _ rfl, initSession_history]
  · exact sentPrompts_not_preserve _ _ rfl

/-- C9: the history is append-only — every `send_message` call extends the
previous history on the right (never reorders, removes or deduplicates) — a
successful turn with `preserve_context = true` appends exactly the submitted
prompt and the response, and the history length of every reachable session is
even. -/
theorem C9_append_only :
    (∀ (s : Session) (i : TurnInput),
      ∃ t, (stepSession s i).conversation_history = s.conversation_history ++ t) ∧
    (∀ (s : Session) (m : Str) (c : Option Str) (so : Bool) (r : Str),
      s.preserve_context = true →
      (send_message s m c so (RemoteResult.ok r)).1.conversation_history =
        s.conversation_history ++ [fullPrompt s m c so, r]) ∧
    (∀ (model : Str) (pc : Bool) (l : List TurnInput),
      Even (runSession (initSession model pc) l).conversation_history.length) := by
  refine ⟨?_, ?_, ?_⟩
  · intro s i
    rcases stepSession_history_cases s i with hc | ⟨p, r, hc⟩
    · exact ⟨[], by rw [hc, List.append_nil]⟩
    · exact ⟨[p, r], hc⟩
  · intro s m c so r hpc
    simp [send_message, hpc]
  · intro model pc l
    exact runSession_history_even _ _ ⟨0, rfl⟩

/-- C6: `validate_code_block` accepts a candidate exactly when all four
checks pass — non-empty with stripped length at least the threshold 10, at
least one basic indicator occurring as a substring, balanced brackets under
the stack discipline, and at least one line with leading whitespace; in
particular "def f(:\n    pass" is rejected and "def f():\n    return 1" is
accepted. -/
theorem C6_validate_characterization :
    (∀ code : Str, validate_code_block code = true ↔
      (code ≠ [] ∧ 10 ≤ (pyStrip code).length ∧
       (∃ ind ∈ basic_indicators, containsSub ind code = true) ∧
       bracketLoop code [] = true ∧
       ∃ line ∈ splitLines code, startsIndented line = true)) ∧
    validate_code_block ("def f(:\n    pass".toList) = false ∧
    validate_code_block ("def f():\n    return 1".toList) = true := by
  refine ⟨fun code => ?_, by decide, by decide⟩
  simp only [validate_code_block]
  split_ifs with h1 h2 h3
  · simp only [Bool.or_eq_true, List.isEmpty_iff, decide_eq_true_eq] at h1
    constructor
    · intro hf; cases hf
    · rintro ⟨hne, hlen, -⟩
      rcases h1 with h | h
      · exact absurd h hne
      · omega
  · constructor
    · intro hf; cases hf
    · rintro ⟨-, -, ⟨ind, hind, hc⟩, -⟩
      have : (basic_indicators.any fun ind => containsSub ind code) = true :=
        List.any_eq_true.mpr ⟨ind, hind, hc⟩
      rw [this] at h2
      cases h2
  · constructor
    · intro hf; cases hf
    · rintro ⟨-, -, -, hb, -⟩
      rw [hb] at h3
      cases h3
  · simp only [Bool.or_eq_true, List.isEmpty_iff, decide_eq_true_eq, not_or,
      Nat.not_lt] at h1
    have h2' : (basic_indicators.any fun ind => containsSub ind code) = true := by
      cases h : basic_indicators.any fun ind => containsSub ind code
      · rw [h] at h2; cases h2 rfl
      · rfl
    have h3' : bracketLoop code [] = true := by
      cases h : bracketLoop code []
      · rw [h] at h3; cases h3 rfl
      · rfl
    rw [List.any_eq_true]
    constructor
    · intro hany
      exact ⟨h1.1, h1.2, List.any_eq_true.mp h2', h3', hany⟩
    · rintro ⟨-, -, -, -, hline⟩
      exact hline

/-- Witness for C9: the first successful turn of a context-preserving session
appends exactly the submitted prompt and the response. -/
theorem C9_append_only_witness :
    (send_message (initSession ("m".toList) true) ("a".toList) none false
        (RemoteResult.ok ("b".toList))).1.conversation_history =
      (initSession ("m".toList) true).conversation_history ++
        [fullPrompt (initSession ("m".toList) true) ("a".toList) none false, "b".toList] :=
  C9_append_only.2.1 _ _ _ _ _ rfl

section ExtractLemmas

lemma fence_eq : fence = backtick :: backtick :: backtick :: [] := rfl

lemma leadingBT_cons_bt (s : Str) : leadingBT (backtick :: s) = leadingBT s + 1 := by
  simp [leadingBT, List.takeWhile_cons]

lemma leadingBT_cons_ne (c : Char) (s : Str) (h : ¬ c = backtick) :
    leadingBT (c :: s) = 0 := by
  simp [leadingBT, List.takeWhile_cons, h]

lemma leadingBT_replaceFences_le : ∀ s : Str, leadingBT (replaceFences s) ≤ leadingBT s
  | [] => le_refl _
  | [_] => le_refl _
  | [_, _] => le_refl _
  | c1 :: c2 :: c3 :: rest => by
    rw [replaceFences]
    by_cases hF : c1 :: c2 :: [c3] = fence
    · rw [if_pos hF]
      rw [fence_eq] at hF
      injection hF with e1 h'
      injection h' with e2 h''
      injection h'' with e3 _
      subst e1; subst e2; subst e3
      have hrec := leadingBT_replaceFences_le rest
      simp only [leadingBT_cons_bt]
      omega
    · rw [if_neg hF]
      by_cases hc : c1 = backtick
      · subst hc
        rw [leadingBT_cons_bt, leadingBT_cons_bt]
        have hrec := leadingBT_replaceFences_le (c2 :: c3 :: rest)
        omega
      · rw [leadingBT_cons_ne c1 _ hc]
        omega

lemma fence_isPrefixOf_cons (c : Char) (u : Str)
    (h : isPre fence (c :: u) = true) : c = backtick ∧ 2 ≤ leadingBT u := by
  rw [fence_eq] at h
  cases u with
  | nil => simp [isPre] at h
  | cons d v =>
    cases v with
    | nil => simp [isPre] at h
    | cons e w =>
      simp only [isPre, Bool.and_eq_true, beq_iff_eq] at h
      obtain ⟨hc, hd, he, -⟩ := h
      refine ⟨hc.symm, ?_⟩
      rw [← hd, ← he, leadingBT_cons_bt, leadingBT_cons_bt]
      omega

lemma two_le_leadingBT_cons (x y : Char) (l : Str) (h : 2 ≤ leadingBT (x :: y :: l)) :
    x = backtick ∧ y = backtick := by
  by_cases hx : x = backtick
  · subst hx
    by_cases hy : y = backtick
    · exact ⟨rfl, hy⟩
    · rw [leadingBT_cons_bt, leadingBT_cons_ne y l hy] at h
      omega
  · rw [leadingBT_cons_ne x _ hx] at h
    omega

lemma replaceFences_no_fence : ∀ s : Str, containsSub fence (replaceFences s) = false
  | [] => by decide
  | [c] => by
    show containsSub fence [c] = false
    simp [containsSub, isPre, fence_eq]
  | [c1, c2] => by
    show containsSub fence [c1, c2] = false
    simp [containsSub, isPre, fence_eq]
  | c1 :: c2 :: c3 :: rest => by
    rw [replaceFences]
    by_cases hF : c1 :: c2 :: [c3] = fence
    · rw [if_pos hF]
      exact replaceFences_no_fence rest
    · rw [if_neg hF, containsSub, replaceFences_no_fence (c2 :: c3 :: rest), Bool.or_false]
      cases hp : isPre fence (c1 :: replaceFences (c2 :: c3 :: rest)) with
      | false => rfl
      | true =>
        exfalso
        obtain ⟨hc1, h2le⟩ := fence_isPrefixOf_cons _ _ hp
        have h2le' : 2 ≤ leadingBT (c2 :: c3 :: rest) :=
          le_trans h2le (leadingBT_replaceFences_le (c2 :: c3 :: rest))
        obtain ⟨hc2, hc3⟩ := two_le_leadingBT_cons _ _ _ h2le'
        exact hF (by rw [hc1, hc2, hc3, fence_eq])

lemma containsSub_cons_parts (pat : Str) (c : Char) (s : Str)
    (h : containsSub pat (c :: s) = false) :
    isPre pat (c :: s) = false ∧ containsSub pat s = false := by
  rw [containsSub, Bool.or_eq_false_iff] at h
  exact h

lemma replaceFences_id_of_no_fence :
    ∀ s : Str, containsSub fence s = false → replaceFences s = s
  | [], _ => rfl
  | [_], _ => rfl
  | [_, _], _ => rfl
  | c1 :: c2 :: c3 :: rest, h => by
    obtain ⟨hpre, hrest⟩ := containsSub_cons_parts _ _ _ h
    rw [replaceFences]
    have hF : ¬ (c1 :: c2 :: [c3] = fence) := by
      intro he
      have hp : isPre fence (c1 :: c2 :: c3 :: rest) = true := by
        rw [← he]
        simp [isPre]
      rw [hp] at hpre
      cases hpre
    rw [if_neg hF, replaceFences_id_of_no_fence (c2 :: c3 :: rest) hrest]

lemma isPrefixOf_append_ext : ∀ (p t v : Str), isPre p t = true →
    isPre p (t ++ v) = true
  | [], _, _, _ => by simp [isPre]
  | a :: p', [], v, h => by simp [isPre] at h
  | a :: p', b :: t', v, h => by
    simp only [isPre, Bool.and_eq_true, beq_iff_eq] at h
    rw [List.cons_append]
    simp only [isPre, Bool.and_eq_true, beq_iff_eq]
    exact ⟨h.1, isPrefixOf_append_ext p' t' v h.2⟩

lemma containsSub_append_left (pat u w : Str) (h : containsSub pat w = true) :
    containsSub pat (u ++ w) = true := by
  induction u with
  | nil => exact h
  | cons x xs ih => rw [List.cons_append, containsSub, ih, Bool.or_true]

lemma containsSub_append_right (pat : Str) :
    ∀ (t v : Str), containsSub pat t = true → containsSub pat (t ++ v) = true
  | [], v, h => by
    have hp : pat = [] := by
      cases pat with
      | nil => rfl
      | cons a as => rw [containsSub] at h; simp [isPre] at h
    subst hp
    rw [List.nil_append]
    cases v with
    | nil => rfl
    | cons c cs => rw [containsSub]; simp [isPre]
  | c :: t', v, h => by
    rw [containsSub] at h
    rw [List.cons_append, containsSub]
    cases hp : isPre pat (c :: t') with
    | true =>
      have := isPrefixOf_append_ext pat (c :: t') v hp
      rw [List.cons_append] at this
      rw [this, Bool.true_or]
    | false =>
      rw [hp, Bool.false_or] at h
      rw [containsSub_append_right pat t' v h, Bool.or_true]

lemma containsSub_of_middle (pat s u v : Str) (h : containsSub pat s = true) :
    containsSub pat (u ++ s ++ v) = true := by
  rw [List.append_assoc]
  exact containsSub_append_left pat u (s ++ v) (containsSub_append_right pat s v h)

lemma pyStrip_middle (s : Str) : ∃ u v, s = u ++ pyStrip s ++ v := by
  refine ⟨s.takeWhile isPySpace,
    (((s.dropWhile isPySpace).reverse.takeWhile isPySpace)).reverse, ?_⟩
  have h1 : s = s.takeWhile isPySpace ++ s.dropWhile isPySpace :=
    (List.takeWhile_append_dropWhile isPySpace s).symm
  have h2 : (s.dropWhile isPySpace).reverse =
      (s.dropWhile isPySpace).reverse.takeWhile isPySpace ++
      (s.dropWhile isPySpace).reverse.dropWhile isPySpace :=
    (List.takeWhile_append_dropWhile isPySpace (s.dropWhile isPySpace).reverse).symm
  have h3 : s.dropWhile isPySpace =
      ((s.dropWhile isPySpace).reverse.dropWhile isPySpace).reverse ++
      ((s.dropWhile isPySpace).reverse.takeWhile isPySpace).reverse := by
    conv_lhs => rw [← List.reverse_reverse (s.dropWhile isPySpace)]
    rw [← List.reverse_append, ← h2]
  rw [pyStrip, List.append_assoc]
  conv_lhs => rw [h1, h3]

lemma containsSub_pyStrip_false (pat s : Str) (h : containsSub pat s = false) :
    containsSub pat (pyStrip s) = false := by
  cases hc : containsSub pat (pyStrip s) with
  | false => rfl
  | true =>
    obtain ⟨u, v, huv⟩ := pyStrip_middle s
    rw [huv, containsSub_of_middle pat (pyStrip s) u v hc] at h
    cases h

end ExtractLemmas

/-- C10: the text written by `save_to_file` is the given content with every
occurrence of a triple backtick deleted and leading/trailing whitespace
stripped: the written text never contains a triple-backtick fence, the
transformation is pure stripping on fence-free content, and it is not the
identity on content that contains a fence. -/
theorem C10_save_strips_fences :
    (∀ content : Str, containsSub fence (save_to_file_content content) = false) ∧
    (∀ content : Str, containsSub fence content = false →
      save_to_file_content content = pyStrip content) ∧
    save_to_file_content ("a```b".toList) = "ab".toList ∧
    containsSub fence ("a```b".toList) = true ∧
    save_to_file_content ("a```b".toList) ≠ "a```b".toList := by
  refine ⟨?_, ?_, by decide, by decide, by decide⟩
  · intro content
    exact containsSub_pyStrip_false _ _ (replaceFences_no_fence content)
  · intro content h
    rw [save_to_file_content, replaceFences_id_of_no_fence content h]

/-- Witness for C10: on fence-free content saving is plain stripping. -/
theorem C10_save_strips_fences_witness :
    save_to_file_content ("  x = 1\n    y\n".toList) = pyStrip ("  x = 1\n    y\n".toList) :=
  C10_save_strips_fences.2.1 _ (by decide)

section RoundTripLemmas

lemma findallFuel_nil (m : Str → Option (Str × Str)) (n : Nat) :
    findallFuel m n [] = [] := by
  cases n <;> rfl

lemma findallFuel_zero (m : Str → Option (Str × Str)) (s : Str) :
    findallFuel m 0 s = [] := by
  cases s <;> rfl

lemma findallFuel_cons_some (m : Str → Option (Str × Str)) (n : Nat) (c : Char)
    (rest b after : Str) (h : m (c :: rest) = some (b, after)) :
    findallFuel m (n + 1) (c :: rest) = b :: findallFuel m n after := by
  rw [findallFuel, h]

lemma findallFuel_cons_none (m : Str → Option (Str × Str)) (n : Nat) (c : Char)
    (rest : Str) (h : m (c :: rest) = none) :
    findallFuel m (n + 1) (c :: rest) = findallFuel m n rest := by
  rw [findallFuel, h]

lemma fence_not_isPrefixOf (c : Char) (X : Str) (hc : c ∉ fence) :
    isPre fence (c :: X) = false := by
  have hne : ¬ c = backtick := by
    intro he
    exact hc (by rw [he, fence_eq]; exact List.mem_cons_self _ _)
  have hbeq : (backtick == c) = false := beq_eq_false_iff_ne.mpr (Ne.symm hne)
  rw [fence_eq]
  simp [isPre, hbeq]

lemma splitOnFirst_fence_clean (t : Str) :
    ∀ S : Str, (∀ c ∈ S, c ∉ fence) →
      splitOnFirst fence (S ++ '\n' :: (fence ++ t)) = some (S ++ ['\n'], t)
  | [], _ => by
    rw [List.nil_append]
    rfl
  | c :: S', hS => by
    have hc : c ∉ fence := hS c (List.mem_cons_self _ _)
    have ih := splitOnFirst_fence_clean t S' fun d hd => hS d (List.mem_cons_of_mem c hd)
    rw [List.cons_append, splitOnFirst,
      if_neg (by rw [fence_not_isPrefixOf c _ hc]; exact fun he => nomatch he), ih]
    rfl

lemma pyStrip_cons_space (c : Char) (s : Str) (h : isPySpace c = true) :
    pyStrip (c :: s) = pyStrip s := by
  rw [pyStrip, pyStrip, List.dropWhile_cons, if_pos h]

lemma dropWhile_space_append_nl (S : Str) :
    (S ++ ['\n']).dropWhile isPySpace =
      if (S.dropWhile isPySpace).isEmpty then [] else S.dropWhile isPySpace ++ ['\n'] := by
  induction S with
  | nil => rfl
  | cons c S' ih =>
    by_cases hc : isPySpace c = true
    · rw [List.cons_append, List.dropWhile_cons, if_pos hc, ih, List.dropWhile_cons,
        if_pos hc]
    · rw [List.cons_append, List.dropWhile_cons, if_neg hc, List.dropWhile_cons, if_neg hc]
      simp

lemma pyStrip_append_newline (S : Str) : pyStrip (S ++ ['\n']) = pyStrip S := by
  rw [pyStrip, pyStrip, dropWhile_space_append_nl]
  by_cases h : (S.dropWhile isPySpace).isEmpty
  · rw [if_pos h]
    rw [List.isEmpty_iff] at h
    rw [h]
  · rw [if_neg h, List.reverse_append]
    simp [List.dropWhile_cons, show isPySpace '\n' = true from rfl]

end RoundTripLemmas

/-- C5: round-trip — for every text S that contains no backtick, extracting
from "```python\n" ++ S ++ "\n```" yields exactly one candidate, namely S
with leading and trailing whitespace stripped. -/
theorem C5_extract_roundtrip (S : Str) (hS : ∀ c ∈ S, c ∉ fence) :
    extract_code_blocks ("```python\n".toList ++ S ++ "\n```".toList) = [pyStrip S] := by
  have harg : "```python\n".toList ++ S ++ "\n```".toList
      = backtick :: backtick :: backtick ::
          ("python\n".toList ++ (S ++ ('\n' :: (fence ++ [])))) := by
    rw [List.append_assoc]
    rfl
  have hmatch : matchPrimaryAt (backtick :: backtick :: backtick ::
      ("python\n".toList ++ (S ++ ('\n' :: (fence ++ []))))) =
      (match splitOnFirst fence (S ++ '\n' :: (fence ++ [])) with
        | some (body, rest) => some (body, rest)
        | none => none) := rfl
  rw [harg, extract_code_blocks]
  rw [findallFuel_cons_some _ _ _ _ _ _
    (by rw [hmatch, splitOnFirst_fence_clean [] S hS]), findallFuel_nil]
  simp [pyStrip_append_newline]

/-- Witness for C5 at a concrete backtick-free body. -/
theorem C5_extract_roundtrip_witness :
    extract_code_blocks ("```python\n".toList ++ "x = 1\n    y = 2".toList
        ++ "\n```".toList) = [pyStrip ("x = 1\n    y = 2".toList)] :=
  C5_extract_roundtrip ("x = 1\n    y = 2".toList) (by decide)

section NoTriggerLemmas

lemma findallFuel_no_trigger (m : Str → Option (Str × Str)) (trig : Str)
    (hm : ∀ s', isPre trig s' = false → m s' = none) :
    ∀ (n : Nat) (s : Str), containsSub trig s = false → findallFuel m n s = []
  | n, [], _ => findallFuel_nil m n
  | 0, _ :: _, _ => rfl
  | n + 1, c :: rest, h => by
    obtain ⟨h1, h2⟩ := containsSub_cons_parts trig c rest h
    rw [findallFuel_cons_none m n c rest (hm _ h1)]
    exact findallFuel_no_trigger m trig hm n rest h2

lemma matchPrimaryAt_none (s : Str) (h : isPre fence s = false) :
    matchPrimaryAt s = none := by
  simp [matchPrimaryAt, h]

lemma matchDelimAt_none (opn cls s : Str) (h : isPre opn s = false) :
    matchDelimAt opn cls s = none := by
  simp [matchDelimAt, h]

lemma matchPermissiveAt_none (s : Str) (h : isPre fence s = false) :
    matchPermissiveAt s = none := by
  simp [matchPermissiveAt, h]

lemma containsSub_of_isPre (p : Str) : ∀ s : Str, isPre p s = true →
    containsSub p s = true
  | [], h => by rw [containsSub]; exact h
  | _ :: _, h => by rw [containsSub, h, Bool.true_or]

lemma containsSub_of_isPre_drop (p : Str) : ∀ (s : Str) (n : Nat),
    isPre p (s.drop n) = true → containsSub p s = true
  | s, 0, h => containsSub_of_isPre p s (by simpa using h)
  | [], _ + 1, h => containsSub_of_isPre p [] (by simpa using h)
  | c :: rest, n + 1, h => by
    rw [List.drop_succ_cons] at h
    rw [containsSub, containsSub_of_isPre_drop p rest n h, Bool.or_true]

lemma isPre_of_append : ∀ (p q s : Str), isPre (p ++ q) s = true → isPre p s = true
  | [], _, _, _ => rfl
  | _ :: _, q, [], h => by
    rw [List.cons_append, isPre] at h
    exact absurd h (fun he => nomatch he)
  | a :: p', q, b :: s', h => by
    rw [List.cons_append, isPre, Bool.and_eq_true] at h
    rw [isPre, Bool.and_eq_true]
    exact ⟨h.1, isPre_of_append p' q s' h.2⟩

lemma isPre_tail_of_space_import (X : Str) (h : isPre (" import".toList) X = true) :
    isPre ("import".toList) (X.drop 1) = true := by
  cases X with
  | nil =>
    rw [show (" import".toList) = ' ' :: "import".toList from rfl, isPre] at h
    exact absurd h (fun he => nomatch he)
  | cons c X' =>
    rw [show (" import".toList) = ' ' :: "import".toList from rfl, isPre,
      Bool.and_eq_true] at h
    simpa using h.2

lemma matchKw_none (s : Str)
    (h1 : containsSub ("def ".toList) s = false)
    (h2 : containsSub ("class ".toList) s = false)
    (h3 : containsSub ("import".toList) s = false) :
    matchKw s = none := by
  have p1 : isPre ("def ".toList) s = false := by
    cases hp : isPre ("def ".toList) s
    · rfl
    · rw [containsSub_of_isPre _ _ hp] at h1; cases h1
  have p2 : isPre ("class ".toList) s = false := by
    cases hp : isPre ("class ".toList) s
    · rfl
    · rw [containsSub_of_isPre _ _ hp] at h2; cases h2
  have p3 : isPre ("import ".toList) s = false := by
    cases hp : isPre ("import ".toList) s
    · rfl
    · have : isPre ("import".toList) s = true :=
        isPre_of_append ("import".toList) (" ".toList) s
          (by rw [show "import".toList ++ " ".toList = "import ".toList from rfl]; exact hp)
      rw [containsSub_of_isPre _ _ this] at h3; cases h3
  rw [matchKw, if_neg (by rw [p1]; exact fun he => nomatch he),
    if_neg (by rw [p2]; exact fun he => nomatch he),
    if_neg (by rw [p3]; exact fun he => nomatch he)]
  by_cases p4 : isPre ("from ".toList) s = true
  · rw [if_pos p4]
    have hplug : isPre (" import".toList)
        ((s.drop 5).drop ((s.drop 5).takeWhile isWordChar).length) = false := by
      cases hp : isPre (" import".toList)
          ((s.drop 5).drop ((s.drop 5).takeWhile isWordChar).length)
      · rfl
      · exfalso
        have htail := isPre_tail_of_space_import _ hp
        rw [List.drop_drop, List.drop_drop] at htail
        have := containsSub_of_isPre_drop ("import".toList) s _ htail
        rw [this] at h3
        cases h3
    simp only [hplug, Bool.and_false]
    rfl
  · rw [if_neg p4]

lemma fallbackFuel_nil_input (n : Nat) (b : Bool) : fallbackFuel n b [] = [] := by
  cases n <;> rfl

lemma fallbackFuel_no_kw :
    ∀ (s : Str) (n : Nat) (b : Bool),
      containsSub ("def ".toList) s = false →
      containsSub ("class ".toList) s = false →
      containsSub ("import".toList) s = false →
      fallbackFuel n b s = []
  | [], n, b, _, _, _ => fallbackFuel_nil_input n b
  | _ :: _, 0, _, _, _, _ => rfl
  | c :: rest, n + 1, b, h1, h2, h3 => by
    have h1' := (containsSub_cons_parts _ _ _ h1).2
    have h2' := (containsSub_cons_parts _ _ _ h2).2
    have h3' := (containsSub_cons_parts _ _ _ h3).2
    have hif : (if b then matchKw (c :: rest) else none) = none := by
      cases b
      · rfl
      · exact matchKw_none _ h1 h2 h3
    simp only [fallbackFuel, hif, matchKw_none rest h1' h2' h3']
    by_cases hc : c = '\n'
    · rw [if_pos hc]
      exact fallbackFuel_no_kw rest n true h1' h2' h3'
    · rw [if_neg hc]
      exact fallbackFuel_no_kw rest n _ h1' h2' h3'

end NoTriggerLemmas

/-- C8 (amended): a response containing no triple backtick, none of the
fallback delimiters (triple single-quote, triple double-quote, triple curly
brace), and none of the code-introducing fallback tokens ("def ", "class ",
"import") yields an empty candidate sequence from the extractor, not an
error.  (The original claim omitted the code-introducing token condition;
see the counterexample.) -/
theorem C8_no_code_extracts_empty (text : Str)
    (hf : containsSub fence text = false)
    (hq1 : containsSub sq3 text = false)
    (hq2 : containsSub dq3 text = false)
    (hq3 : containsSub cb3open text = false)
    (h1 : containsSub ("def ".toList) text = false)
    (h2 : containsSub ("class ".toList) text = false)
    (h3 : containsSub ("import".toList) text = false) :
    extract_code_blocks text = [] := by
  simp only [extract_code_blocks]
  rw [findallFuel_no_trigger matchPrimaryAt fence
      (fun s' hs' => matchPrimaryAt_none s' hs') _ _ hf,
    findallFuel_no_trigger (matchDelimAt sq3 sq3) sq3
      (fun s' hs' => matchDelimAt_none _ _ _ hs') _ _ hq1,
    findallFuel_no_trigger (matchDelimAt dq3 dq3) dq3
      (fun s' hs' => matchDelimAt_none _ _ _ hs') _ _ hq2,
    findallFuel_no_trigger (matchDelimAt cb3open cb3close) cb3open
      (fun s' hs' => matchDelimAt_none _ _ _ hs') _ _ hq3,
    findallFuel_no_trigger matchPermissiveAt fence
      (fun s' hs' => matchPermissiveAt_none s' hs') _ _ hf,
    fallbackFuel_no_kw text _ _ h1 h2 h3]
  simp

/-- Witness for C8 (amended) on a concrete token-free text. -/
theorem C8_no_code_extracts_empty_witness :
    extract_code_blocks ("hello world\nnothing here".toList) = [] :=
  C8_no_code_extracts_empty _ (by decide) (by decide) (by decide) (by decide)
    (by decide) (by decide) (by decide)

/-- Counterexample to C8 as stated: "def add(a, b): return a + b" contains
no fenced region and none of the fallback-convention delimiters, yet the
extractor returns a non-empty candidate sequence, produced by the final
code-introducing-token fallback the claim ignores. -/
theorem C8_counterexample :
    containsSub fence ("def add(a, b): return a + b".toList) = false ∧
    containsSub sq3 ("def add(a, b): return a + b".toList) = false ∧
    containsSub dq3 ("def add(a, b): return a + b".toList) = false ∧
    containsSub cb3open ("def add(a, b): return a + b".toList) = false ∧
    extract_code_blocks ("def add(a, b): return a + b".toList) =
      ["def add(a, b): return a + b".toList] := by
  decide

end ClaudeCli
